import Mathlib

/-!
Verification of the batch image-processing scripts of the repository
rust-image-processor (three Python source files):

* src/python/py_jpeg_converter/main.py   — full-fidelity JPEG conversion
  (process_jpeg_files), mirroring the input tree into an output tree;
* src/python/scripts/jpeg_compressor/main.py — JPEG recompression
  (compress_jpeg and its command entry point main);
* src/python/scripts/jpeg_counter/main.py — duplicate base-name audit (main).

The scripts are embedded shallowly: a run is a pure function from a snapshot
of the relevant filesystem facts (root existence, the entry list produced by
the recursive walk, the content class of each file) to the observable effects
of the run (per-entry outcomes, directories created, files written, log lines
emitted).  The image codec (PIL) is the external collaborator: a file content
is classified by how the codec reacts to it (decodes and saves, raises
UnidentifiedImageError on open, or raises some other exception during save),
exactly the three behaviours the scripts distinguish.
-/

namespace ImgProc

/-- A path relative to a root directory, as a list of components.
The empty list denotes the root itself. -/
abbrev Path := List String

/-- All take-closures of a path: the path itself together with every
ancestor, down to the root [].  This is the set of directories that
Path.mkdir with parents=True brings into existence (relative to the
relevant root). -/
def upTo (p : Path) : List Path :=
  (List.range (p.length + 1)).map (fun i => p.take i)

/-! ### Python pathlib suffix and stem semantics

Path.suffix in pathlib returns the final dot-segment of the last path
component: name[i:] where i is the index of the last dot, provided
0 < i < len(name) - 1; otherwise the empty string.  Path.stem is the
name with that suffix removed. -/

/-- Index of the last occurrence of a dot in a character list, if any;
the index is counted from offset i0. -/
def lastDotIdxAux : List Char → Nat → Option Nat
  | [], _ => none
  | c :: cs, i =>
    match lastDotIdxAux cs (i + 1) with
    | some j => some j
    | none => if c = '.' then some i else none

/-- Index of the last dot in a character list, if any. -/
def lastDotIdx (cs : List Char) : Option Nat :=
  lastDotIdxAux cs 0

/-- Python pathlib Path.suffix of a file name. -/
def pySuffix (name : String) : String :=
  let cs := name.toList
  match lastDotIdx cs with
  | none => ""
  | some i =>
    if 0 < i ∧ i + 1 < cs.length then String.mk (cs.drop i) else ""

/-- Python pathlib Path.stem of a file name. -/
def pyStem (name : String) : String :=
  let cs := name.toList
  match lastDotIdx cs with
  | none => name
  | some i =>
    if 0 < i ∧ i + 1 < cs.length then String.mk (cs.take i) else name

/-- ASCII lower-casing of one character, as str.lower() acts on the ASCII
range; file-extension comparisons in the scripts only ever involve ASCII. -/
def asciiLowerChar (c : Char) : Char :=
  if 'A' ≤ c ∧ c ≤ 'Z' then Char.ofNat (c.toNat + 32) else c

/-- ASCII lower-casing of a string (models str.lower() on extensions). -/
def asciiLower (s : String) : String :=
  String.mk (s.toList.map asciiLowerChar)

/-- The extension gate shared by all three scripts:
file_path.suffix.lower() in (".jpg", ".jpeg"). -/
def scopeExt (name : String) : Bool :=
  asciiLower (pySuffix name) = ".jpg" || asciiLower (pySuffix name) = ".jpeg"

/-! ### Filesystem snapshot -/

/-- How the image codec (PIL) reacts to the bytes of a file.  This is the
collaborator boundary: the scripts only observe these three behaviours. -/
inductive Content where
  /-- Image.open succeeds, the detected format is fmt, and save succeeds. -/
  | image (fmt : String)
  /-- Image.open raises UnidentifiedImageError (corrupt or non-image bytes). -/
  | corrupt
  /-- Image.open succeeds with detected format fmt but save raises some
  other exception (I/O error, encoder error, ...). -/
  | saveError (fmt : String)
deriving DecidableEq, Repr

/-- Kind of one filesystem node met during the recursive walk. -/
inductive EKind where
  | dir
  | file (c : Content)
deriving DecidableEq, Repr

/-- One node produced by input_path.glob("**/*") (converter, compressor) or
input_path.rglob("*") (counter), identified by its path relative to the
input root. -/
structure Entry where
  rel : Path
  kind : EKind
deriving DecidableEq, Repr

/-- Last path component of an entry (pathlib name). -/
def Entry.name (e : Entry) : String := e.rel.getLastD ""

/-- Whether an entry is a directory. -/
def Entry.isDir (e : Entry) : Bool :=
  match e.kind with
  | .dir => true
  | .file _ => false

/-- Snapshot of the filesystem facts a run depends on. -/
structure FS where
  /-- input_path.exists() -/
  rootExists : Bool
  /-- whether the input root is a directory; pathlib glob("**/*") on an
  existing root that is not a directory yields an empty iterator, so such a
  snapshot has an empty entry list -/
  rootIsDir : Bool
  /-- whether the output destination already exists before the run -/
  outputExists : Bool
  /-- the walk produced by input_path.glob("**/*"), in walk order: every
  node strictly below the input root (empty when the root is no directory) -/
  entries : List Entry
deriving DecidableEq, Repr

/-- A well-formed snapshot: every entry path is non-empty (the root itself
is not an element of its own recursive glob), every strict ancestor of an
entry is itself listed as a directory entry, and entry paths are distinct. -/
def WF (fs : FS) : Prop :=
  (∀ e ∈ fs.entries, e.rel ≠ []) ∧
  (∀ e ∈ fs.entries, ∀ i < e.rel.length, 0 < i →
    ∃ d ∈ fs.entries, d.rel = e.rel.take i ∧ d.kind = EKind.dir) ∧
  (fs.entries.map Entry.rel).Nodup

instance (fs : FS) : Decidable (WF fs) := by
  unfold WF
  exact inferInstance

/-! ### Outcomes, log lines and run results -/

/-- Classification of what happened to one walked entry. -/
inductive Outcome where
  /-- A directory entry (converter: mirrored; compressor: skipped). -/
  | dirEntry
  /-- In-scope file transcoded and written; fmt is the detected format. -/
  | success (fmt : String)
  /-- File whose extension is not .jpg or .jpeg: skipped, no codec call. -/
  | skippedNotInScope
  /-- Image.open raised UnidentifiedImageError; recorded, loop continued. -/
  | failedUnreadable
  /-- Some other exception during processing; recorded, loop continued. -/
  | failedOther
deriving DecidableEq, Repr

/-- Log-line vocabulary of the two batch scripts.  Every constructor except
aggregateSummary is emitted by some logging call in the source;
aggregateSummary is the counts line the specification describes, kept in the
vocabulary so its absence from actual runs is statable. -/
inductive LogEvent where
  /-- converter: "skip: ... is not a JPEG" info line -/
  | skipNotJpeg (p : Path)
  /-- converter: "file ..., detected format ..." info line -/
  | detectedFormat (p : Path) (fmt : String)
  /-- converter: "saved as JPEG: ..." info line -/
  | savedAsJpeg (p : Path)
  /-- converter: "error: ... could not be recognized as an image" error line -/
  | unreadable (p : Path)
  /-- converter: "error while processing ..." error line -/
  | otherError (p : Path)
  /-- logging.error(e, exc_info=True) or logger.error(..., exc_info=True):
  an error line that carries the exception with a stack trace -/
  | excStackTrace (p : Path)
  /-- compressor: "directory skipped" info line -/
  | dirSkipped (p : Path)
  /-- compressor: "not a JPEG file" warning line -/
  | notJpegWarning (p : Path)
  /-- compressor: per-file "compressed: ... -> ..." info line -/
  | compressed (p : Path)
  /-- final "processing finished" info line of either script -/
  | runCompleted
  /-- an aggregate summary line carrying counts of processed, skipped,
  succeeded and failed entries; present in the vocabulary only so that its
  absence is statable — no source logging call produces it -/
  | aggregateSummary (processed skipped succeeded failed : Nat)
deriving DecidableEq, Repr

/-- Whether a log line carries a stack trace. -/
def LogEvent.hasStackTrace : LogEvent → Bool
  | .excStackTrace _ => true
  | _ => false

/-- Whether a log line is an aggregate counts summary. -/
def LogEvent.isAggregateSummary : LogEvent → Bool
  | .aggregateSummary _ _ _ _ => true
  | _ => false

/-- Observable effects of one entry iteration. -/
structure StepOut where
  outcome : Outcome
  dirsCreated : List Path
  filesWritten : List Path
  logs : List LogEvent
deriving DecidableEq, Repr

/-- Observable effects of a whole batch run. -/
structure RunResult where
  /-- one outcome per walked entry, in walk order -/
  outcomes : List (Path × Outcome)
  /-- directories created under the output root (relative paths; [] is the
  output root itself), with multiplicity of the mkdir calls -/
  dirsCreated : List Path
  /-- output files written, relative to the output root -/
  filesWritten : List Path
  /-- log lines emitted during the run -/
  logs : List LogEvent
deriving DecidableEq, Repr

/-! ### Converter: process_jpeg_files (py_jpeg_converter/main.py)

Per-entry body of the loop (lines 74-109): compute the mirrored path; a
directory is re-created in the output tree; a file whose lowered suffix is
not .jpg or .jpeg is logged and skipped; otherwise the parent of the
mirrored path is created and the codec is invoked inside try/except, with
UnidentifiedImageError and every other exception caught and logged
(exc_info=True) without leaving the loop. -/

/-- One iteration of the converter loop over one entry. -/
def converterStep (e : Entry) : StepOut :=
  match e.kind with
  | .dir =>
      { outcome := .dirEntry, dirsCreated := upTo e.rel
        filesWritten := [], logs := [] }
  | .file c =>
      if ¬ scopeExt e.name then
        { outcome := .skippedNotInScope, dirsCreated := []
          filesWritten := [], logs := [.skipNotJpeg e.rel] }
      else
        match c with
        | .image fmt =>
            { outcome := .success fmt, dirsCreated := upTo e.rel.dropLast
              filesWritten := [e.rel]
              logs := [.detectedFormat e.rel fmt, .savedAsJpeg e.rel] }
        | .corrupt =>
            { outcome := .failedUnreadable, dirsCreated := upTo e.rel.dropLast
              filesWritten := []
              logs := [.unreadable e.rel, .excStackTrace e.rel] }
        | .saveError fmt =>
            { outcome := .failedOther, dirsCreated := upTo e.rel.dropLast
              filesWritten := []
              logs := [.detectedFormat e.rel fmt, .otherError e.rel,
                       .excStackTrace e.rel] }

/-- Folds the converter loop over the walked entries, after creating the
output root.  Assumes the root checks already passed. -/
def converterLoop (entries : List Entry) : RunResult :=
  { outcomes := entries.map (fun e => (e.rel, (converterStep e).outcome))
    dirsCreated := upTo [] ++ entries.flatMap (fun e => (converterStep e).dirsCreated)
    filesWritten := entries.flatMap (fun e => (converterStep e).filesWritten)
    logs := entries.flatMap (fun e => (converterStep e).logs) }

/-- process_jpeg_files: raises FileNotFoundError when the input root does
not exist (lines 64-66) — existence is the only validation; creates the
output root (line 69, mkdir exist_ok parents, with no check that it is
fresh); then folds the loop over tuple(input_path.glob("**/*")).  The walk
is whatever glob returns: for an existing root that is not a directory,
pathlib yields an empty iterator and the function completes normally over
an empty walk. -/
def process_jpeg_files (fs : FS) : Except String RunResult :=
  if ¬ fs.rootExists then
    .error "FileNotFoundError: input directory not found"
  else
    .ok (converterLoop fs.entries)

/-- Command entry point of the converter: calls process_jpeg_files and logs
a completion message afterwards; an exception propagates out uncaught. -/
def converterMain (fs : FS) : Except String RunResult :=
  match process_jpeg_files fs with
  | .error m => .error m
  | .ok r => .ok { r with logs := r.logs ++ [.runCompleted] }

/-! ### Compressor: compress_jpeg and main (jpeg_compressor/main.py) -/

/-- One iteration of the compressor loop over one entry (lines 41-77): a
directory is logged and skipped (not mirrored); for every file the parent of
the mirrored path is created before the extension check; an out-of-scope
file is logged with a warning and skipped; otherwise the file is opened and
re-saved inside try/except Exception, logging errors with exc_info=True. -/
def compressorStep (e : Entry) : StepOut :=
  match e.kind with
  | .dir =>
      { outcome := .dirEntry, dirsCreated := []
        filesWritten := [], logs := [.dirSkipped e.rel] }
  | .file c =>
      if ¬ scopeExt e.name then
        { outcome := .skippedNotInScope, dirsCreated := upTo e.rel.dropLast
          filesWritten := [], logs := [.notJpegWarning e.rel] }
      else
        match c with
        | .image fmt =>
            { outcome := .success fmt, dirsCreated := upTo e.rel.dropLast
              filesWritten := [e.rel], logs := [.compressed e.rel] }
        | .corrupt =>
            { outcome := .failedUnreadable, dirsCreated := upTo e.rel.dropLast
              filesWritten := [], logs := [.excStackTrace e.rel] }
        | .saveError _ =>
            { outcome := .failedOther, dirsCreated := upTo e.rel.dropLast
              filesWritten := [], logs := [.excStackTrace e.rel] }

/-- Folds the compressor loop over the walked entries, after creating the
output root (line 36). -/
def compressorLoop (entries : List Entry) : RunResult :=
  { outcomes := entries.map (fun e => (e.rel, (compressorStep e).outcome))
    dirsCreated := upTo [] ++ entries.flatMap (fun e => (compressorStep e).dirsCreated)
    filesWritten := entries.flatMap (fun e => (compressorStep e).filesWritten)
    logs := entries.flatMap (fun e => (compressorStep e).logs) }

/-- compress_jpeg: creates the output root, then folds the loop over
tuple(input_path.glob("**/*")); every per-entry exception is caught inside
the loop, and glob on a non-directory root yields an empty walk, so with
the modelled fault classes the function always completes (the Except shell
only records that an unmodelled collaborator failure could escape). -/
def compress_jpeg (fs : FS) : Except String RunResult :=
  .ok (compressorLoop fs.entries)

/-- Result of the compressor command entry point main (lines 80-121). -/
inductive CompressorMainResult where
  /-- input path does not exist: error logged, early return -/
  | abortedMissingInput
  /-- output path already exists: warning logged, early return, nothing
  processed -/
  | abortedOutputExists
  /-- interactive confirmation declined: early return -/
  | cancelled
  /-- compress_jpeg ran to completion with these effects -/
  | completed (r : RunResult)
  /-- an exception escaped compress_jpeg; kept for the totality of the
  match on its result, never produced by the modelled fault classes (every
  per-entry exception is caught inside the loop) -/
  | crashed (msg : String)
deriving DecidableEq, Repr

/-- Command entry point of the compressor: validates input existence, then
refuses any pre-existing output path, then asks for confirmation, then runs
compress_jpeg and logs a completion message. -/
def compressorMain (fs : FS) (confirm : Bool) : CompressorMainResult :=
  if ¬ fs.rootExists then .abortedMissingInput
  else if fs.outputExists then .abortedOutputExists
  else if ¬ confirm then .cancelled
  else
    match compress_jpeg fs with
    | .error m => .crashed m
    | .ok r => .completed { r with logs := r.logs ++ [.runCompleted] }

/-! ### Duplicate auditor: jpeg_counter/main.py

The counter walks rglob("*"), keeps regular files whose lowered suffix is
.jpg or .jpeg, counts stems with collections.Counter (a dict, so iteration
order is first-encounter order of each stem), keeps for each stem the list
of its full paths in walk order, and reports via Counter.most_common() —
a stable descending sort on the count — the stems whose count exceeds 1. -/

/-- Files selected by the counter: f.is_file() and the extension gate. -/
def jpegFiles (entries : List Entry) : List Entry :=
  entries.filter (fun e => ¬ e.isDir && scopeExt e.name)

/-- Stem of an entry (extension-stripped base name). -/
def stemOf (e : Entry) : String := pyStem e.name

/-- First-encounter-ordered list of distinct stems: the key order of the
Counter dict (dict preserves first-insertion order of keys). -/
def uniqueStems (l : List String) : List String :=
  match l with
  | [] => []
  | s :: ss => s :: uniqueStems (ss.filter (fun t => t ≠ s))
termination_by l.length
decreasing_by
  simp only [List.length_cons]
  exact Nat.lt_succ_of_le (List.length_filter_le _ _)

/-- Counter items: each distinct stem, in first-encounter order, paired with
its number of occurrences. -/
def counterItems (stems : List String) : List (String × Nat) :=
  (uniqueStems stems).map (fun s => (s, stems.count s))

/-- Insert into a descending-by-count list, before every element whose count
does not exceed the inserted count (so an element inserted from the left
lands before all later elements of equal count: stability of sorted with
reverse=True). -/
def insertByCount (x : String × Nat) : List (String × Nat) → List (String × Nat)
  | [] => [x]
  | y :: ys => if y.2 ≤ x.2 then x :: y :: ys else y :: insertByCount x ys

/-- Stable descending sort by count: the model of sorted(items,
key=itemgetter(1), reverse=True), which is what Counter.most_common()
performs; CPython sorted is stable, so it agrees with this insertion sort. -/
def sortByCountDesc : List (String × Nat) → List (String × Nat)
  | [] => []
  | x :: xs => insertByCount x (sortByCountDesc xs)

/-- Counter.most_common() of the stem multiset. -/
def mostCommon (stems : List String) : List (String × Nat) :=
  sortByCountDesc (counterItems stems)

/-- The duplicate list: [(name, count) for ... in most_common() if count > 1]. -/
def duplicateItems (stems : List String) : List (String × Nat) :=
  (mostCommon stems).filter (fun g => 1 < g.2)

/-- One reported duplicate group: base name, occurrence count, and the full
path list shown in the table and the detail log. -/
structure AuditRow where
  stem : String
  count : Nat
  paths : List Path
deriving DecidableEq, Repr

/-- The report of the counter: for each duplicate item, the paths of that
stem in walk order (the filename_paths dict of the source). -/
def jpegCounterAudit (entries : List Entry) : List AuditRow :=
  (duplicateItems ((jpegFiles entries).map stemOf)).map (fun g =>
    { stem := g.1, count := g.2
      paths :=
        ((jpegFiles entries).filter (fun e => stemOf e = g.1)).map Entry.rel })

/-! ### Helper lemmas -/

theorem mem_upTo {q p : Path} : q ∈ upTo p ↔ ∃ i, i ≤ p.length ∧ q = p.take i := by
  unfold upTo
  simp only [List.mem_map, List.mem_range]
  constructor
  · rintro ⟨i, hi, rfl⟩
    exact ⟨i, Nat.lt_succ_iff.mp hi, rfl⟩
  · rintro ⟨i, hi, rfl⟩
    exact ⟨i, Nat.lt_succ_iff.mpr hi, rfl⟩

theorem self_mem_upTo (p : Path) : p ∈ upTo p :=
  mem_upTo.mpr ⟨p.length, le_refl _, (List.take_length p).symm⟩

theorem nil_mem_upTo (p : Path) : ([] : Path) ∈ upTo p :=
  mem_upTo.mpr ⟨0, Nat.zero_le _, rfl⟩

theorem take_mem_upTo_of_mem {q p : Path} (h : q ∈ upTo p) (i : Nat) :
    q.take i ∈ upTo p := by
  rcases mem_upTo.mp h with ⟨j, hj, rfl⟩
  refine mem_upTo.mpr ⟨min i j, le_trans (Nat.min_le_right i j) hj, ?_⟩
  rw [List.take_take]

/-- A file entry that the codec decodes and saves, whose extension passes
the gate: exactly the entries a run converts successfully. -/
def Entry.isValidInScope (e : Entry) : Bool :=
  match e.kind with
  | .file (.image _) => scopeExt e.name
  | _ => false

/-- A file entry whose bytes make Image.open raise UnidentifiedImageError,
whose extension passes the gate. -/
def Entry.isCorruptInScope (e : Entry) : Bool :=
  match e.kind with
  | .file .corrupt => scopeExt e.name
  | _ => false

/-- Whether an outcome is a success. -/
def Outcome.isSuccess : Outcome → Bool
  | .success _ => true
  | _ => false

/-- Whether an outcome is an unreadable-image failure. -/
def Outcome.isUnreadable : Outcome → Bool
  | .failedUnreadable => true
  | _ => false

theorem converterStep_isSuccess (e : Entry) :
    (converterStep e).outcome.isSuccess = e.isValidInScope := by
  rcases e with ⟨rel, k⟩
  cases k with
  | dir => rfl
  | file c =>
    by_cases h : scopeExt (Entry.mk rel (EKind.file c)).name <;>
      cases c <;>
      simp [converterStep, Entry.isValidInScope, Outcome.isSuccess, h]

theorem converterStep_isUnreadable (e : Entry) :
    (converterStep e).outcome.isUnreadable = e.isCorruptInScope := by
  rcases e with ⟨rel, k⟩
  cases k with
  | dir => rfl
  | file c =>
    by_cases h : scopeExt (Entry.mk rel (EKind.file c)).name <;>
      cases c <;>
      simp [converterStep, Entry.isCorruptInScope, Outcome.isUnreadable, h]

theorem converterStep_writes_length (e : Entry) :
    (converterStep e).filesWritten.length = if e.isValidInScope then 1 else 0 := by
  rcases e with ⟨rel, k⟩
  cases k with
  | dir => rfl
  | file c =>
    by_cases h : scopeExt (Entry.mk rel (EKind.file c)).name <;>
      cases c <;>
      simp [converterStep, Entry.isValidInScope, h]

theorem compressorStep_isSuccess (e : Entry) :
    (compressorStep e).outcome.isSuccess = e.isValidInScope := by
  rcases e with ⟨rel, k⟩
  cases k with
  | dir => rfl
  | file c =>
    by_cases h : scopeExt (Entry.mk rel (EKind.file c)).name <;>
      cases c <;>
      simp [compressorStep, Entry.isValidInScope, Outcome.isSuccess, h]

theorem compressorStep_isUnreadable (e : Entry) :
    (compressorStep e).outcome.isUnreadable = e.isCorruptInScope := by
  rcases e with ⟨rel, k⟩
  cases k with
  | dir => rfl
  | file c =>
    by_cases h : scopeExt (Entry.mk rel (EKind.file c)).name <;>
      cases c <;>
      simp [compressorStep, Entry.isCorruptInScope, Outcome.isUnreadable, h]

theorem compressorStep_writes_length (e : Entry) :
    (compressorStep e).filesWritten.length = if e.isValidInScope then 1 else 0 := by
  rcases e with ⟨rel, k⟩
  cases k with
  | dir => rfl
  | file c =>
    by_cases h : scopeExt (Entry.mk rel (EKind.file c)).name <;>
      cases c <;>
      simp [compressorStep, Entry.isValidInScope, h]

theorem length_flatMap_eq_countP {f : Entry → List Path} {p : Entry → Bool}
    (h : ∀ e, (f e).length = if p e then 1 else 0) (l : List Entry) :
    (l.flatMap f).length = l.countP p := by
  induction l with
  | nil => simp
  | cons e es ih =>
    simp only [List.flatMap_cons, List.length_append, ih, List.countP_cons, h e]
    split <;> omega

theorem countP_outcomes {step : Entry → StepOut} {q : Outcome → Bool}
    {p : Entry → Bool} (h : ∀ e, q (step e).outcome = p e) (l : List Entry) :
    (l.map (fun e => (e.rel, (step e).outcome))).countP (fun po => q po.2)
      = l.countP p := by
  rw [List.countP_map]
  exact List.countP_congr (fun e _ => by simp [Function.comp, h e])

/-! ### Claim theorems -/

/-- C1: for every input tree containing one corrupted or non-image file with
a .jpg or .jpeg extension among N valid JPEG files, both batch runs
(conversion and compression) complete without aborting — per-entry
exceptions never leave the loop, every walked entry gets an outcome —
produce N successful outputs (N files written), and record exactly one
unreadable-image failure. -/
theorem fault_isolation_one_corrupt (fs : FS) (N : Nat)
    (hex : fs.rootExists = true) (hdir : fs.rootIsDir = true)
    (hN : fs.entries.countP Entry.isValidInScope = N)
    (h1 : fs.entries.countP Entry.isCorruptInScope = 1) :
    process_jpeg_files fs = Except.ok (converterLoop fs.entries) ∧
    (converterLoop fs.entries).outcomes.length = fs.entries.length ∧
    (converterLoop fs.entries).outcomes.countP (fun po => po.2.isSuccess) = N ∧
    (converterLoop fs.entries).outcomes.countP (fun po => po.2.isUnreadable) = 1 ∧
    (converterLoop fs.entries).filesWritten.length = N ∧
    ∃ rk, compress_jpeg fs = Except.ok rk ∧
      rk.outcomes.length = fs.entries.length ∧
      rk.outcomes.countP (fun po => po.2.isSuccess) = N ∧
      rk.outcomes.countP (fun po => po.2.isUnreadable) = 1 ∧
      rk.filesWritten.length = N := by
  refine ⟨?_, ?_, ?_, ?_, ?_, ?_⟩
  · simp [process_jpeg_files, hex, hdir]
  · simp [converterLoop]
  · rw [converterLoop, countP_outcomes converterStep_isSuccess]
    exact hN
  · rw [converterLoop, countP_outcomes converterStep_isUnreadable]
    exact h1
  · rw [converterLoop, length_flatMap_eq_countP converterStep_writes_length]
    exact hN
  · refine ⟨compressorLoop fs.entries, by simp [compress_jpeg, hdir], ?_, ?_, ?_, ?_⟩
    · simp [compressorLoop]
    · rw [compressorLoop, countP_outcomes compressorStep_isSuccess]
      exact hN
    · rw [compressorLoop, countP_outcomes compressorStep_isUnreadable]
      exact h1
    · rw [compressorLoop, length_flatMap_eq_countP compressorStep_writes_length]
      exact hN

/-- Concrete tree for the C1 witness: a directory with one valid JPEG, one
corrupted file posing as .jpg, and one out-of-scope text file. -/
def fsC1 : FS :=
  { rootExists := true, rootIsDir := true, outputExists := false
    entries :=
      [ ⟨["a"], .dir⟩,
        ⟨["a", "good.jpg"], .file (.image "JPEG")⟩,
        ⟨["a", "bad.jpg"], .file .corrupt⟩,
        ⟨["a", "note.txt"], .file (.image "PNG")⟩ ] }

/-- Witness for C1 at the concrete tree fsC1 with N = 1. -/
theorem fault_isolation_one_corrupt_witness :
    process_jpeg_files fsC1 = Except.ok (converterLoop fsC1.entries) ∧
    (converterLoop fsC1.entries).outcomes.length = fsC1.entries.length ∧
    (converterLoop fsC1.entries).outcomes.countP (fun po => po.2.isSuccess) = 1 ∧
    (converterLoop fsC1.entries).outcomes.countP (fun po => po.2.isUnreadable) = 1 ∧
    (converterLoop fsC1.entries).filesWritten.length = 1 ∧
    ∃ rk, compress_jpeg fsC1 = Except.ok rk ∧
      rk.outcomes.length = fsC1.entries.length ∧
      rk.outcomes.countP (fun po => po.2.isSuccess) = 1 ∧
      rk.outcomes.countP (fun po => po.2.isUnreadable) = 1 ∧
      rk.filesWritten.length = 1 :=
  fault_isolation_one_corrupt fsC1 1 rfl rfl (by decide) (by decide)

theorem upTo_nil : upTo ([] : Path) = [[]] := rfl

theorem converterStep_dirs_sub (e : Entry) (hrel : e.rel ≠ []) {p : Path}
    (hp : p ∈ (converterStep e).dirsCreated) :
    ∃ i, i ≤ e.rel.length ∧ p = e.rel.take i ∧
      (e.kind = EKind.dir ∨ i < e.rel.length) := by
  rcases e with ⟨rel, k⟩
  cases k with
  | dir =>
    rcases mem_upTo.mp hp with ⟨i, hi, rfl⟩
    exact ⟨i, hi, rfl, Or.inl rfl⟩
  | file c =>
    have hlen : 0 < rel.length := List.length_pos.mpr hrel
    by_cases h : scopeExt (Entry.mk rel (EKind.file c)).name
    · have hd : (converterStep ⟨rel, .file c⟩).dirsCreated = upTo rel.dropLast := by
        cases c <;> simp [converterStep, h]
      rw [hd] at hp
      rcases mem_upTo.mp hp with ⟨i, hi, rfl⟩
      rw [List.length_dropLast] at hi
      dsimp only at hi ⊢
      refine ⟨min i (rel.length - 1), by omega, ?_, Or.inr (by omega)⟩
      rw [List.dropLast_eq_take, List.take_take]
    · have hd : (converterStep ⟨rel, .file c⟩).dirsCreated = [] := by
        cases c <;> simp [converterStep, h]
      rw [hd] at hp
      cases hp

theorem converterLoop_dirs_mem {fs : FS} (hwf : WF fs) {p : Path} :
    p ∈ (converterLoop fs.entries).dirsCreated ↔
      (p = [] ∨ ∃ e ∈ fs.entries, e.kind = EKind.dir ∧ e.rel = p) := by
  constructor
  · intro hp
    rcases List.mem_append.mp hp with h | h
    · left
      simpa [upTo_nil] using h
    · rcases List.mem_flatMap.mp h with ⟨e, he, hpe⟩
      rcases converterStep_dirs_sub e (hwf.1 e he) hpe with ⟨i, hile, rfl, hcase⟩
      by_cases hi0 : i = 0
      · left
        simp [hi0]
      · right
        have hpos : 0 < i := Nat.pos_of_ne_zero hi0
        rcases hcase with hkind | hlt
        · by_cases hilen : i = e.rel.length
          · exact ⟨e, he, hkind, by rw [hilen, List.take_length]⟩
          · rcases hwf.2.1 e he i (lt_of_le_of_ne hile hilen) hpos with
              ⟨d, hd, hdrel, hdk⟩
            exact ⟨d, hd, hdk, hdrel⟩
        · rcases hwf.2.1 e he i hlt hpos with ⟨d, hd, hdrel, hdk⟩
          exact ⟨d, hd, hdk, hdrel⟩
  · intro hp
    rcases hp with rfl | ⟨e, he, hk, rfl⟩
    · exact List.mem_append.mpr (Or.inl (by simp [upTo_nil]))
    · refine List.mem_append.mpr (Or.inr (List.mem_flatMap.mpr ⟨e, he, ?_⟩))
      rcases e with ⟨rel, k⟩
      cases k with
      | dir => exact self_mem_upTo rel
      | file c => cases hk

theorem compressorStep_dirs_file (rel : Path) (c : Content) :
    (compressorStep ⟨rel, .file c⟩).dirsCreated = upTo rel.dropLast := by
  by_cases h : scopeExt (Entry.mk rel (EKind.file c)).name <;> cases c <;>
    simp [compressorStep, h]

theorem compressorLoop_dirs_mem (entries : List Entry) {p : Path} :
    p ∈ (compressorLoop entries).dirsCreated ↔
      (p = [] ∨ ∃ e ∈ entries, (∃ c, e.kind = EKind.file c) ∧
        ∃ i, i ≤ e.rel.dropLast.length ∧ p = e.rel.dropLast.take i) := by
  constructor
  · intro hp
    rcases List.mem_append.mp hp with h | h
    · left
      simpa [upTo_nil] using h
    · rcases List.mem_flatMap.mp h with ⟨e, he, hpe⟩
      rcases e with ⟨rel, k⟩
      cases k with
      | dir => cases hpe
      | file c =>
        rw [compressorStep_dirs_file] at hpe
        rcases mem_upTo.mp hpe with ⟨i, hi, rfl⟩
        exact Or.inr ⟨⟨rel, .file c⟩, he, ⟨c, rfl⟩, i, hi, rfl⟩
  · intro hp
    rcases hp with rfl | ⟨e, he, ⟨c, hk⟩, i, hi, rfl⟩
    · exact List.mem_append.mpr (Or.inl (by simp [upTo_nil]))
    · refine List.mem_append.mpr (Or.inr (List.mem_flatMap.mpr ⟨e, he, ?_⟩))
      rcases e with ⟨rel, k⟩
      cases hk
      rw [compressorStep_dirs_file]
      exact mem_upTo.mpr ⟨i, hi, rfl⟩

/-- Concrete tree for the C2 counterexample: a single empty directory d. -/
def fsEmptyDir : FS :=
  { rootExists := true, rootIsDir := true, outputExists := false
    entries := [⟨["d"], .dir⟩] }

/-- C2 counterexample: on an input tree consisting of one empty directory d,
the compression run completes but creates only the output root; the mirrored
directory d is not created, so the output directory set differs from the
input directory set. -/
theorem mirrored_directories_cex :
    WF fsEmptyDir ∧
    compress_jpeg fsEmptyDir = Except.ok (compressorLoop fsEmptyDir.entries) ∧
    (compressorLoop fsEmptyDir.entries).dirsCreated = [[]] ∧
    (⟨["d"], EKind.dir⟩ : Entry) ∈ fsEmptyDir.entries ∧
    (["d"] : Path) ∉ (compressorLoop fsEmptyDir.entries).dirsCreated :=
  ⟨by decide, rfl, rfl, by decide, by decide⟩

/-- C2 amended: after a conversion run the directories created under the
output root are exactly the output root and the input directories,
path-for-path; after a compression run they are exactly the output root and
the ancestors (inclusive) of the parent directory of each walked file, so a
directory with no file anywhere beneath it is not mirrored by the
compression variant. -/
theorem mirrored_directories (fs : FS) (hwf : WF fs)
    (hex : fs.rootExists = true) (hdir : fs.rootIsDir = true) :
    process_jpeg_files fs = Except.ok (converterLoop fs.entries) ∧
    compress_jpeg fs = Except.ok (compressorLoop fs.entries) ∧
    (∀ p : Path, p ∈ (converterLoop fs.entries).dirsCreated ↔
      (p = [] ∨ ∃ e ∈ fs.entries, e.kind = EKind.dir ∧ e.rel = p)) ∧
    (∀ p : Path, p ∈ (compressorLoop fs.entries).dirsCreated ↔
      (p = [] ∨ ∃ e ∈ fs.entries, (∃ c, e.kind = EKind.file c) ∧
        ∃ i, i ≤ e.rel.dropLast.length ∧ p = e.rel.dropLast.take i)) := by
  refine ⟨by simp [process_jpeg_files, hex, hdir], by simp [compress_jpeg, hdir],
    fun p => converterLoop_dirs_mem hwf, fun p => compressorLoop_dirs_mem fs.entries⟩

/-- Witness for the amended C2 at a concrete tree: directory a holding file
a/x.jpg, and an empty directory b; the converter mirrors both a and b, the
compressor mirrors a (parent of a file) but not b. -/
def fsC2 : FS :=
  { rootExists := true, rootIsDir := true, outputExists := false
    entries :=
      [ ⟨["a"], .dir⟩,
        ⟨["a", "x.jpg"], .file (.image "JPEG")⟩,
        ⟨["b"], .dir⟩ ] }

/-- Witness for the amended C2, evaluated at fsC2. -/
theorem mirrored_directories_witness :
    (["b"] : Path) ∈ (converterLoop fsC2.entries).dirsCreated ∧
    (["a"] : Path) ∈ (compressorLoop fsC2.entries).dirsCreated ∧
    (["b"] : Path) ∉ (compressorLoop fsC2.entries).dirsCreated := by
  have h := mirrored_directories fsC2 (by decide) rfl rfl
  refine ⟨(h.2.2.1 ["b"]).mpr ?_, (h.2.2.2 ["a"]).mpr ?_, ?_⟩
  · exact Or.inr ⟨⟨["b"], .dir⟩, by decide, rfl, rfl⟩
  · exact Or.inr ⟨⟨["a", "x.jpg"], .file (.image "JPEG")⟩, by decide,
      ⟨.image "JPEG", rfl⟩, 1, by decide, rfl⟩
  · decide

/-- C3: a walked file is in scope for all three scripts exactly when its
lowered extension is .jpg or .jpeg; an out-of-scope file is recorded by the
converter with a skip info line and by the compressor with a warning line
(never an error outcome, never a stack trace), it is excluded from the
counter selection, and it is not transcoded (no write). -/
theorem scope_gate (e : Entry) (c : Content) (entries : List Entry)
    (hk : e.kind = EKind.file c) :
    ((converterStep e).outcome = Outcome.skippedNotInScope ↔ scopeExt e.name = false) ∧
    ((compressorStep e).outcome = Outcome.skippedNotInScope ↔ scopeExt e.name = false) ∧
    (e ∈ jpegFiles entries ↔ e ∈ entries ∧ scopeExt e.name = true) ∧
    (scopeExt e.name = false →
      (converterStep e).logs = [LogEvent.skipNotJpeg e.rel] ∧
      (compressorStep e).logs = [LogEvent.notJpegWarning e.rel] ∧
      (converterStep e).filesWritten = [] ∧
      (compressorStep e).filesWritten = []) := by
  rcases e with ⟨rel, k⟩
  cases hk
  refine ⟨?_, ?_, ?_, ?_⟩
  · by_cases h : scopeExt (Entry.mk rel (EKind.file c)).name <;> cases c <;>
      simp [converterStep, h]
  · by_cases h : scopeExt (Entry.mk rel (EKind.file c)).name <;> cases c <;>
      simp [compressorStep, h]
  · simp [jpegFiles, List.mem_filter, Entry.isDir]
  · intro hs
    refine ⟨?_, ?_, ?_, ?_⟩ <;> cases c <;> simp [converterStep, compressorStep, hs]

/-- Witness for C3 at a concrete out-of-scope file entry. -/
theorem scope_gate_witness :
    ((converterStep ⟨["n.txt"], .file (.image "PNG")⟩).outcome
        = Outcome.skippedNotInScope ↔
      scopeExt (Entry.name ⟨["n.txt"], .file (.image "PNG")⟩) = false) ∧
    ((compressorStep ⟨["n.txt"], .file (.image "PNG")⟩).outcome
        = Outcome.skippedNotInScope ↔
      scopeExt (Entry.name ⟨["n.txt"], .file (.image "PNG")⟩) = false) ∧
    ((⟨["n.txt"], .file (.image "PNG")⟩ : Entry)
        ∈ jpegFiles [⟨["n.txt"], .file (.image "PNG")⟩] ↔
      (⟨["n.txt"], .file (.image "PNG")⟩ : Entry)
        ∈ [(⟨["n.txt"], .file (.image "PNG")⟩ : Entry)] ∧
      scopeExt (Entry.name ⟨["n.txt"], .file (.image "PNG")⟩) = true) ∧
    (scopeExt (Entry.name ⟨["n.txt"], .file (.image "PNG")⟩) = false →
      (converterStep ⟨["n.txt"], .file (.image "PNG")⟩).logs
          = [LogEvent.skipNotJpeg ["n.txt"]] ∧
      (compressorStep ⟨["n.txt"], .file (.image "PNG")⟩).logs
          = [LogEvent.notJpegWarning ["n.txt"]] ∧
      (converterStep ⟨["n.txt"], .file (.image "PNG")⟩).filesWritten = [] ∧
      (compressorStep ⟨["n.txt"], .file (.image "PNG")⟩).filesWritten = []) :=
  scope_gate ⟨["n.txt"], .file (.image "PNG")⟩ (.image "PNG")
    [⟨["n.txt"], .file (.image "PNG")⟩] rfl

theorem converterStep_writes_sub (e : Entry) {p : Path}
    (hp : p ∈ (converterStep e).filesWritten) : p = e.rel := by
  rcases e with ⟨rel, k⟩
  cases k with
  | dir => cases hp
  | file c =>
    by_cases h : scopeExt (Entry.mk rel (EKind.file c)).name <;> cases c <;>
      simp_all [converterStep, h]

theorem compressorStep_writes_sub (e : Entry) {p : Path}
    (hp : p ∈ (compressorStep e).filesWritten) : p = e.rel := by
  rcases e with ⟨rel, k⟩
  cases k with
  | dir => cases hp
  | file c =>
    by_cases h : scopeExt (Entry.mk rel (EKind.file c)).name <;> cases c <;>
      simp_all [compressorStep, h]

theorem converterStep_skip_of_notScope {e : Entry} {c : Content}
    (hk : e.kind = EKind.file c) (hs : scopeExt e.name = false) :
    (converterStep e).outcome = Outcome.skippedNotInScope ∧
    (converterStep e).filesWritten = [] := by
  rcases e with ⟨rel, k⟩
  cases hk
  cases c <;> simp [converterStep, hs]

theorem compressorStep_skip_of_notScope {e : Entry} {c : Content}
    (hk : e.kind = EKind.file c) (hs : scopeExt e.name = false) :
    (compressorStep e).outcome = Outcome.skippedNotInScope ∧
    (compressorStep e).filesWritten = [] := by
  rcases e with ⟨rel, k⟩
  cases hk
  cases c <;> simp [compressorStep, hs]

/-- C4: for an out-of-scope input file, neither batch variant writes an
output file at its mirrored path, and the entry outcome recorded for its
path — by both variants — is the skip outcome, not a failure. -/
theorem out_of_scope_frame (fs : FS) (hwf : WF fs) (e : Entry) (c : Content)
    (he : e ∈ fs.entries) (hk : e.kind = EKind.file c)
    (hs : scopeExt e.name = false) :
    e.rel ∉ (converterLoop fs.entries).filesWritten ∧
    e.rel ∉ (compressorLoop fs.entries).filesWritten ∧
    (e.rel, Outcome.skippedNotInScope) ∈ (converterLoop fs.entries).outcomes ∧
    (e.rel, Outcome.skippedNotInScope) ∈ (compressorLoop fs.entries).outcomes ∧
    (∀ o, (e.rel, o) ∈ (converterLoop fs.entries).outcomes →
      o = Outcome.skippedNotInScope) ∧
    (∀ o, (e.rel, o) ∈ (compressorLoop fs.entries).outcomes →
      o = Outcome.skippedNotInScope) := by
  have hinj := List.inj_on_of_nodup_map hwf.2.2
  refine ⟨?_, ?_, ?_, ?_, ?_, ?_⟩
  · intro hmem
    rcases List.mem_flatMap.mp hmem with ⟨f, hf, hpf⟩
    have hfe : f = e := hinj hf he (converterStep_writes_sub f hpf).symm
    rw [hfe, (converterStep_skip_of_notScope hk hs).2] at hpf
    cases hpf
  · intro hmem
    rcases List.mem_flatMap.mp hmem with ⟨f, hf, hpf⟩
    have hfe : f = e := hinj hf he (compressorStep_writes_sub f hpf).symm
    rw [hfe, (compressorStep_skip_of_notScope hk hs).2] at hpf
    cases hpf
  · exact List.mem_map.mpr ⟨e, he,
      by rw [(converterStep_skip_of_notScope hk hs).1]⟩
  · exact List.mem_map.mpr ⟨e, he,
      by rw [(compressorStep_skip_of_notScope hk hs).1]⟩
  · intro o hmem
    rcases List.mem_map.mp hmem with ⟨f, hf, hfo⟩
    have h1 : f.rel = e.rel := congrArg Prod.fst hfo
    have hfe : f = e := hinj hf he h1
    have h2 : (converterStep f).outcome = o := congrArg Prod.snd hfo
    rw [hfe, (converterStep_skip_of_notScope hk hs).1] at h2
    exact h2.symm
  · intro o hmem
    rcases List.mem_map.mp hmem with ⟨f, hf, hfo⟩
    have h1 : f.rel = e.rel := congrArg Prod.fst hfo
    have hfe : f = e := hinj hf he h1
    have h2 : (compressorStep f).outcome = o := congrArg Prod.snd hfo
    rw [hfe, (compressorStep_skip_of_notScope hk hs).1] at h2
    exact h2.symm

/-- Concrete tree for the C4 witness: one in-scope JPEG and one PNG. -/
def fsC4 : FS :=
  { rootExists := true, rootIsDir := true, outputExists := false
    entries :=
      [ ⟨["p.jpg"], .file (.image "JPEG")⟩,
        ⟨["q.png"], .file (.image "PNG")⟩ ] }

/-- Witness for C4 at the out-of-scope entry q.png of fsC4. -/
theorem out_of_scope_frame_witness :
    (["q.png"] : Path) ∉ (converterLoop fsC4.entries).filesWritten ∧
    (["q.png"] : Path) ∉ (compressorLoop fsC4.entries).filesWritten ∧
    ((["q.png"] : Path), Outcome.skippedNotInScope)
      ∈ (converterLoop fsC4.entries).outcomes ∧
    ((["q.png"] : Path), Outcome.skippedNotInScope)
      ∈ (compressorLoop fsC4.entries).outcomes :=
  have h := out_of_scope_frame fsC4 (by decide)
    ⟨["q.png"], .file (.image "PNG")⟩ (.image "PNG") (by decide) rfl (by decide)
  ⟨h.1, h.2.1, h.2.2.1, h.2.2.2.1⟩

/-- Concrete snapshots for the C5 witness: missing root, root that is a
regular file (empty walk), and a healthy directory root holding one file of
each fault class. -/
def fsNoRoot : FS :=
  { rootExists := false, rootIsDir := false, outputExists := false, entries := [] }

def fsFileRoot : FS :=
  { rootExists := true, rootIsDir := false, outputExists := false, entries := [] }

def fsC5 : FS :=
  { rootExists := true, rootIsDir := true, outputExists := false
    entries :=
      [ ⟨["ok.jpg"], .file (.image "JPEG")⟩,
        ⟨["bad.jpg"], .file .corrupt⟩,
        ⟨["sick.jpg"], .file (.saveError "JPEG")⟩ ] }

/-- C5 counterexample: an input root that exists but is a regular file
passes the validation of both variants, because each one tests existence
only; pathlib glob then yields an empty walk, so both runs complete
normally — the converter returns successfully and the compressor command
reaches completion — contradicting the claim that a non-directory root
aborts the run. -/
theorem root_validation_cex :
    fsFileRoot.rootExists = true ∧
    fsFileRoot.rootIsDir = false ∧
    process_jpeg_files fsFileRoot
      = Except.ok (converterLoop fsFileRoot.entries) ∧
    compressorMain fsFileRoot true
      = CompressorMainResult.completed
          { compressorLoop fsFileRoot.entries with
            logs := (compressorLoop fsFileRoot.entries).logs
              ++ [LogEvent.runCompleted] } :=
  ⟨rfl, rfl, rfl, rfl⟩

/-- C5 amended: a missing input root aborts both variants before any
processing (converter: FileNotFoundError raised at the validation,
compressor: error logged and early return from main), and this existence
check is the only fatal condition: the validation does not test that the
root is a directory — an existing non-directory root walks an empty glob
(pathlib yields an empty iterator for it) and both runs complete normally,
processing nothing — and for any existing root no per-entry fault is
fatal: both loops return an outcome for every walked entry whatever the
content of every file. -/
theorem fatal_only_missing_root (fs : FS) (confirm : Bool) :
    (fs.rootExists = false →
      process_jpeg_files fs
          = Except.error "FileNotFoundError: input directory not found" ∧
      compressorMain fs confirm = CompressorMainResult.abortedMissingInput) ∧
    (fs.rootExists = true →
      process_jpeg_files fs = Except.ok (converterLoop fs.entries) ∧
      (converterLoop fs.entries).outcomes.length = fs.entries.length ∧
      compress_jpeg fs = Except.ok (compressorLoop fs.entries) ∧
      (compressorLoop fs.entries).outcomes.length = fs.entries.length) ∧
    (fs.rootExists = true → fs.rootIsDir = false → fs.entries = [] →
      process_jpeg_files fs = Except.ok (converterLoop []) ∧
      (converterLoop []).outcomes = [] ∧
      (converterLoop []).filesWritten = [] ∧
      (fs.outputExists = false → confirm = true →
        compressorMain fs confirm
          = CompressorMainResult.completed
              { compressorLoop [] with
                logs := (compressorLoop []).logs ++ [LogEvent.runCompleted] } ∧
        (compressorLoop []).outcomes = [] ∧
        (compressorLoop []).filesWritten = [])) := by
  refine ⟨fun h0 => ⟨?_, ?_⟩, fun h1 => ?_, fun h1 h2 hent => ?_⟩
  · simp [process_jpeg_files, h0]
  · simp [compressorMain, h0]
  · exact ⟨by simp [process_jpeg_files, h1], by simp [converterLoop],
      rfl, by simp [compressorLoop]⟩
  · refine ⟨by simp [process_jpeg_files, h1, hent], rfl, rfl, fun ho hc => ?_⟩
    refine ⟨?_, rfl, rfl⟩
    simp [compressorMain, compress_jpeg, h1, ho, hc, hent]

/-- Witness for the amended C5 at the three concrete snapshots. -/
theorem fatal_only_missing_root_witness :
    (process_jpeg_files fsNoRoot
        = Except.error "FileNotFoundError: input directory not found" ∧
      compressorMain fsNoRoot true = CompressorMainResult.abortedMissingInput) ∧
    (process_jpeg_files fsC5 = Except.ok (converterLoop fsC5.entries) ∧
      (converterLoop fsC5.entries).outcomes.length = fsC5.entries.length ∧
      compress_jpeg fsC5 = Except.ok (compressorLoop fsC5.entries) ∧
      (compressorLoop fsC5.entries).outcomes.length = fsC5.entries.length) ∧
    (process_jpeg_files fsFileRoot = Except.ok (converterLoop []) ∧
      (converterLoop []).outcomes = [] ∧
      (converterLoop []).filesWritten = []) :=
  ⟨(fatal_only_missing_root fsNoRoot true).1 rfl,
    (fatal_only_missing_root fsC5 true).2.1 rfl,
    have h := (fatal_only_missing_root fsFileRoot true).2.2 rfl rfl rfl
    ⟨h.1, h.2.1, h.2.2.1⟩⟩

theorem converterStep_dirs_shape (e : Entry) :
    (converterStep e).dirsCreated = [] ∨
      ∃ q, (converterStep e).dirsCreated = upTo q := by
  rcases e with ⟨rel, k⟩
  cases k with
  | dir => exact Or.inr ⟨rel, rfl⟩
  | file c =>
    by_cases h : scopeExt (Entry.mk rel (EKind.file c)).name
    · refine Or.inr ⟨rel.dropLast, ?_⟩
      cases c <;> simp [converterStep, h]
    · refine Or.inl ?_
      cases c <;> simp [converterStep, h]

theorem compressorStep_dirs_shape (e : Entry) :
    (compressorStep e).dirsCreated = [] ∨
      ∃ q, (compressorStep e).dirsCreated = upTo q := by
  rcases e with ⟨rel, k⟩
  cases k with
  | dir => exact Or.inl rfl
  | file c => exact Or.inr ⟨rel.dropLast, compressorStep_dirs_file rel c⟩

theorem dirsCreated_take_closed {entries : List Entry} {step : Entry → StepOut}
    (hstep : ∀ e, (step e).dirsCreated = [] ∨ ∃ q, (step e).dirsCreated = upTo q)
    {p : Path}
    (hp : p ∈ upTo [] ++ entries.flatMap (fun e => (step e).dirsCreated))
    (i : Nat) :
    p.take i ∈ upTo [] ++ entries.flatMap (fun e => (step e).dirsCreated) := by
  rcases List.mem_append.mp hp with h | h
  · refine List.mem_append.mpr (Or.inl ?_)
    have hnil : p = [] := by simpa [upTo_nil] using h
    simp [hnil, upTo_nil]
  · rcases List.mem_flatMap.mp h with ⟨e, he, hpe⟩
    rcases hstep e with hshape | ⟨q, hshape⟩
    · rw [hshape] at hpe
      cases hpe
    · rw [hshape] at hpe
      refine List.mem_append.mpr (Or.inr (List.mem_flatMap.mpr ⟨e, he, ?_⟩))
      rw [hshape]
      exact take_mem_upTo_of_mem hpe i

/-- C6: both variants create the output root on demand, and every directory
creation in either run also creates all ancestor directories (the created
set is closed under taking an ancestor); with a pre-existing output
destination — in particular a non-empty one — the compressor command aborts
before processing any file, while the converter run proceeds identically,
silently reusing the destination. -/
theorem output_root_policy (fs : FS) (confirm : Bool) :
    ([] ∈ (converterLoop fs.entries).dirsCreated) ∧
    ([] ∈ (compressorLoop fs.entries).dirsCreated) ∧
    (∀ p ∈ (converterLoop fs.entries).dirsCreated, ∀ i : Nat,
      p.take i ∈ (converterLoop fs.entries).dirsCreated) ∧
    (∀ p ∈ (compressorLoop fs.entries).dirsCreated, ∀ i : Nat,
      p.take i ∈ (compressorLoop fs.entries).dirsCreated) ∧
    (fs.rootExists = true → fs.outputExists = true →
      compressorMain fs confirm = CompressorMainResult.abortedOutputExists) ∧
    (fs.rootExists = true → fs.rootIsDir = true →
      process_jpeg_files fs = Except.ok (converterLoop fs.entries)) := by
  refine ⟨?_, ?_, ?_, ?_, fun h1 ho => ?_, fun h1 h2 => ?_⟩
  · exact List.mem_append.mpr (Or.inl (by simp [upTo_nil]))
  · exact List.mem_append.mpr (Or.inl (by simp [upTo_nil]))
  · exact fun p hp i => dirsCreated_take_closed converterStep_dirs_shape hp i
  · exact fun p hp i => dirsCreated_take_closed compressorStep_dirs_shape hp i
  · simp [compressorMain, h1, ho]
  · simp [process_jpeg_files, h1, h2]

/-- Concrete snapshot for the C6 witness: a pre-existing output destination
over a healthy input root with one JPEG in a subdirectory. -/
def fsC6 : FS :=
  { rootExists := true, rootIsDir := true, outputExists := true
    entries := [⟨["sub"], .dir⟩, ⟨["sub", "x.jpg"], .file (.image "JPEG")⟩] }

/-- Witness for C6 at fsC6: the compressor aborts on the existing output
destination, the converter still runs, and the creation of sub also covers
its ancestors. -/
theorem output_root_policy_witness :
    ([] ∈ (converterLoop fsC6.entries).dirsCreated) ∧
    compressorMain fsC6 true = CompressorMainResult.abortedOutputExists ∧
    process_jpeg_files fsC6 = Except.ok (converterLoop fsC6.entries) ∧
    (["sub"] : Path).take 0 ∈ (converterLoop fsC6.entries).dirsCreated :=
  have h := output_root_policy fsC6 true
  ⟨h.1, h.2.2.2.2.1 rfl rfl, h.2.2.2.2.2 rfl rfl,
    h.2.2.1 ["sub"] (by decide) 0⟩

/-- Log lines of a compressor command result, when it completed. -/
def CompressorMainResult.logsOf : CompressorMainResult → Option (List LogEvent)
  | .completed r => some r.logs
  | _ => none

/-- Concrete tree for C7: a single corrupted file posing as .jpg. -/
def fsC7 : FS :=
  { rootExists := true, rootIsDir := true, outputExists := false
    entries := [⟨["bad.jpg"], .file .corrupt⟩] }

/-- Converter log of the C7 run. -/
def convLogsC7 : List LogEvent :=
  [.unreadable ["bad.jpg"], .excStackTrace ["bad.jpg"], .runCompleted]

/-- Compressor log of the C7 run. -/
def compLogsC7 : List LogEvent :=
  [.excStackTrace ["bad.jpg"], .runCompleted]

/-- C7 counterexample: on a run whose only entry fails, both variants end
with a bare completion message — no aggregate summary line with counts of
processed, skipped, succeeded and failed entries exists anywhere in either
log — and the per-entry failure is surfaced with a stack trace
(exc_info=True), so the claim fails on both of its conjuncts. -/
theorem run_summary_cex :
    (converterMain fsC7).map RunResult.logs = Except.ok convLogsC7 ∧
    (compressorMain fsC7 true).logsOf = some compLogsC7 ∧
    convLogsC7.any LogEvent.hasStackTrace = true ∧
    convLogsC7.any LogEvent.isAggregateSummary = false ∧
    compLogsC7.any LogEvent.hasStackTrace = true ∧
    compLogsC7.any LogEvent.isAggregateSummary = false :=
  ⟨rfl, rfl, rfl, rfl, rfl, rfl⟩

theorem converterStep_no_summary (e : Entry) :
    ∀ l ∈ (converterStep e).logs, l.isAggregateSummary = false := by
  rcases e with ⟨rel, k⟩
  cases k with
  | dir => simp [converterStep]
  | file c =>
    by_cases h : scopeExt (Entry.mk rel (EKind.file c)).name <;> cases c <;>
      simp [converterStep, h, LogEvent.isAggregateSummary]

theorem compressorStep_no_summary (e : Entry) :
    ∀ l ∈ (compressorStep e).logs, l.isAggregateSummary = false := by
  rcases e with ⟨rel, k⟩
  cases k with
  | dir =>
    rintro l hl
    rcases List.mem_singleton.mp hl with rfl
    rfl
  | file c =>
    by_cases h : scopeExt (Entry.mk rel (EKind.file c)).name <;> cases c <;>
      simp [compressorStep, h, LogEvent.isAggregateSummary]

theorem converterStep_corrupt_logs {e : Entry}
    (hk : e.kind = EKind.file Content.corrupt) (hs : scopeExt e.name = true) :
    (converterStep e).logs
      = [LogEvent.unreadable e.rel, LogEvent.excStackTrace e.rel] := by
  rcases e with ⟨rel, k⟩
  cases hk
  simp [converterStep, hs]

theorem compressorStep_corrupt_logs {e : Entry}
    (hk : e.kind = EKind.file Content.corrupt) (hs : scopeExt e.name = true) :
    (compressorStep e).logs = [LogEvent.excStackTrace e.rel] := by
  rcases e with ⟨rel, k⟩
  cases hk
  simp [compressorStep, hs]

/-- C7 amended: every batch run over an existing directory root completes
with an outcome for every entry, ends with a bare completion log line, never
emits an aggregate counts summary, and surfaces each unreadable-file failure
through error log lines that carry the source path and the exception with a
stack trace (exc_info=True). -/
theorem run_ends_plain_completion (fs : FS)
    (hex : fs.rootExists = true) (hdir : fs.rootIsDir = true)
    (ho : fs.outputExists = false) :
    (∃ r, converterMain fs = Except.ok r ∧
      r.logs.getLast? = some LogEvent.runCompleted ∧
      (∀ l ∈ r.logs, l.isAggregateSummary = false) ∧
      r.outcomes.length = fs.entries.length ∧
      (∀ e ∈ fs.entries, e.kind = EKind.file Content.corrupt →
        scopeExt e.name = true →
        LogEvent.unreadable e.rel ∈ r.logs ∧
        LogEvent.excStackTrace e.rel ∈ r.logs)) ∧
    (∃ r, compressorMain fs true = CompressorMainResult.completed r ∧
      r.logs.getLast? = some LogEvent.runCompleted ∧
      (∀ l ∈ r.logs, l.isAggregateSummary = false) ∧
      r.outcomes.length = fs.entries.length ∧
      (∀ e ∈ fs.entries, e.kind = EKind.file Content.corrupt →
        scopeExt e.name = true →
        LogEvent.excStackTrace e.rel ∈ r.logs)) := by
  constructor
  · refine ⟨{ converterLoop fs.entries with
        logs := (converterLoop fs.entries).logs ++ [LogEvent.runCompleted] },
      ?_, ?_, ?_, ?_, ?_⟩
    · simp [converterMain, process_jpeg_files, hex, hdir]
    · exact List.getLast?_concat _
    · intro l hl
      rcases List.mem_append.mp hl with h | h
      · rcases List.mem_flatMap.mp h with ⟨e, he, hle⟩
        exact converterStep_no_summary e l hle
      · rcases List.mem_singleton.mp h with rfl
        rfl
    · simp [converterLoop]
    · intro e he hk hs
      constructor
      · refine List.mem_append.mpr (Or.inl (List.mem_flatMap.mpr ⟨e, he, ?_⟩))
        rw [converterStep_corrupt_logs hk hs]
        simp
      · refine List.mem_append.mpr (Or.inl (List.mem_flatMap.mpr ⟨e, he, ?_⟩))
        rw [converterStep_corrupt_logs hk hs]
        simp
  · refine ⟨{ compressorLoop fs.entries with
        logs := (compressorLoop fs.entries).logs ++ [LogEvent.runCompleted] },
      ?_, ?_, ?_, ?_, ?_⟩
    · simp [compressorMain, compress_jpeg, hex, hdir, ho]
    · exact List.getLast?_concat _
    · intro l hl
      rcases List.mem_append.mp hl with h | h
      · rcases List.mem_flatMap.mp h with ⟨e, he, hle⟩
        exact compressorStep_no_summary e l hle
      · rcases List.mem_singleton.mp h with rfl
        rfl
    · simp [compressorLoop]
    · intro e he hk hs
      refine List.mem_append.mpr (Or.inl (List.mem_flatMap.mpr ⟨e, he, ?_⟩))
      rw [compressorStep_corrupt_logs hk hs]
      simp

/-- Witness for the amended C7 at the concrete tree fsC7. -/
theorem run_ends_plain_completion_witness :
    (∃ r, converterMain fsC7 = Except.ok r ∧
      r.logs.getLast? = some LogEvent.runCompleted ∧
      (∀ l ∈ r.logs, l.isAggregateSummary = false) ∧
      r.outcomes.length = fsC7.entries.length ∧
      (∀ e ∈ fsC7.entries, e.kind = EKind.file Content.corrupt →
        scopeExt e.name = true →
        LogEvent.unreadable e.rel ∈ r.logs ∧
        LogEvent.excStackTrace e.rel ∈ r.logs)) ∧
    (∃ r, compressorMain fsC7 true = CompressorMainResult.completed r ∧
      r.logs.getLast? = some LogEvent.runCompleted ∧
      (∀ l ∈ r.logs, l.isAggregateSummary = false) ∧
      r.outcomes.length = fsC7.entries.length ∧
      (∀ e ∈ fsC7.entries, e.kind = EKind.file Content.corrupt →
        scopeExt e.name = true →
        LogEvent.excStackTrace e.rel ∈ r.logs)) :=
  run_ends_plain_completion fsC7 rfl rfl rfl

/-- C10: in the compression variant, the mirrored parent directory of every
walked file is created before the extension check runs, so out-of-scope
files also get their enclosing output directories; a run over a tree whose
files are all out of scope still creates those directories while writing no
output file. -/
theorem compressor_parent_dirs_for_all_files (fs : FS)
    (hdir : fs.rootIsDir = true) :
    compress_jpeg fs = Except.ok (compressorLoop fs.entries) ∧
    (∀ e ∈ fs.entries, ∀ c, e.kind = EKind.file c →
      e.rel.dropLast ∈ (compressorLoop fs.entries).dirsCreated) ∧
    ((∀ e ∈ fs.entries, ∀ c, e.kind = EKind.file c → scopeExt e.name = false) →
      (compressorLoop fs.entries).filesWritten = []) := by
  refine ⟨by simp [compress_jpeg, hdir], ?_, ?_⟩
  · intro e he c hk
    refine List.mem_append.mpr (Or.inr (List.mem_flatMap.mpr ⟨e, he, ?_⟩))
    rcases e with ⟨rel, k⟩
    cases hk
    rw [compressorStep_dirs_file]
    exact self_mem_upTo _
  · intro hall
    refine List.flatMap_eq_nil_iff.mpr ?_
    intro e he
    rcases hke : e.kind with _ | c
    · rcases e with ⟨rel, k⟩
      cases hke
      rfl
    · exact (compressorStep_skip_of_notScope hke (hall e he c hke)).2

/-- Concrete tree for the C10 witness: a subdirectory holding only an
out-of-scope text file. -/
def fsC10 : FS :=
  { rootExists := true, rootIsDir := true, outputExists := false
    entries := [⟨["s"], .dir⟩, ⟨["s", "a.txt"], .file (.image "PNG")⟩] }

/-- Witness for C10 at fsC10: the parent directory s of the out-of-scope
file is created and nothing is written. -/
theorem compressor_parent_dirs_for_all_files_witness :
    compress_jpeg fsC10 = Except.ok (compressorLoop fsC10.entries) ∧
    (["s", "a.txt"] : Path).dropLast ∈ (compressorLoop fsC10.entries).dirsCreated ∧
    (compressorLoop fsC10.entries).filesWritten = [] :=
  have h := compressor_parent_dirs_for_all_files fsC10 rfl
  ⟨h.1,
    h.2.1 ⟨["s", "a.txt"], .file (.image "PNG")⟩ (by decide) (.image "PNG") rfl,
    h.2.2 (by
      intro e he c hk
      rcases List.mem_cons.mp he with rfl | he2
      · cases hk
      · rcases List.mem_cons.mp he2 with rfl | he3
        · decide
        · cases he3)⟩

theorem mem_uniqueStems {a : String} (l : List String) :
    a ∈ uniqueStems l ↔ a ∈ l := by
  induction l using uniqueStems.induct with
  | case1 => simp [uniqueStems]
  | case2 s ss ih =>
    rw [uniqueStems]
    by_cases has : a = s
    · simp [has]
    · simp only [List.mem_cons, ih, List.mem_filter]
      constructor
      · rintro (rfl | ⟨h1, _⟩)
        · exact Or.inl rfl
        · exact Or.inr h1
      · rintro (rfl | h1)
        · exact Or.inl rfl
        · exact Or.inr ⟨h1, by simpa using has⟩

theorem indexOf_filter_lt_iff {p : String → Bool} {l : List String} {a b : String}
    (ha : a ∈ l.filter p) (hb : b ∈ l.filter p) (hab : a ≠ b) :
    ((l.filter p).indexOf a < (l.filter p).indexOf b ↔
      l.indexOf a < l.indexOf b) := by
  induction l with
  | nil => cases ha
  | cons c cs ih =>
    by_cases hpc : p c
    · rw [List.filter_cons_of_pos hpc] at ha hb ⊢
      by_cases hac : a = c
      · subst hac
        rw [List.indexOf_cons_self, List.indexOf_cons_self,
          List.indexOf_cons_ne _ hab, List.indexOf_cons_ne _ hab]
        simp
      · by_cases hbc : b = c
        · subst hbc
          rw [List.indexOf_cons_self, List.indexOf_cons_self,
            List.indexOf_cons_ne _ (Ne.symm hab), List.indexOf_cons_ne _ (Ne.symm hab)]
          simp
        · have ha2 : a ∈ cs.filter p := by
            rcases List.mem_cons.mp ha with h | h
            · exact absurd h hac
            · exact h
          have hb2 : b ∈ cs.filter p := by
            rcases List.mem_cons.mp hb with h | h
            · exact absurd h hbc
            · exact h
          rw [List.indexOf_cons_ne _ (fun h => hac h.symm),
            List.indexOf_cons_ne _ (fun h => hbc h.symm),
            List.indexOf_cons_ne _ (fun h => hac h.symm),
            List.indexOf_cons_ne _ (fun h => hbc h.symm),
            Nat.succ_lt_succ_iff, Nat.succ_lt_succ_iff]
          exact ih ha2 hb2
    · rw [List.filter_cons_of_neg hpc] at ha hb ⊢
      have hac : a ≠ c := by
        rintro rfl
        exact hpc (List.mem_filter.mp ha).2
      have hbc : b ≠ c := by
        rintro rfl
        exact hpc (List.mem_filter.mp hb).2
      rw [List.indexOf_cons_ne _ (fun h => hac h.symm),
        List.indexOf_cons_ne _ (fun h => hbc h.symm), Nat.succ_lt_succ_iff]
      exact ih ha hb

theorem uniqueStems_pairwise_firstIdx (l : List String) :
    (uniqueStems l).Pairwise (fun s t => l.indexOf s < l.indexOf t) := by
  induction l using uniqueStems.induct with
  | case1 => simp [uniqueStems]
  | case2 s ss ih =>
    rw [uniqueStems, List.pairwise_cons]
    constructor
    · intro t ht
      have ht2 := (mem_uniqueStems _).mp ht
      have hts : t ≠ s := by simpa using (List.mem_filter.mp ht2).2
      rw [List.indexOf_cons_self, List.indexOf_cons_ne _ (Ne.symm hts)]
      exact Nat.succ_pos _
    · refine List.Pairwise.imp_of_mem ?_ ih
      intro a b hma hmb hfilt
      have ha2 := (mem_uniqueStems _).mp hma
      have hb2 := (mem_uniqueStems _).mp hmb
      have has : a ≠ s := by simpa using (List.mem_filter.mp ha2).2
      have hbs : b ≠ s := by simpa using (List.mem_filter.mp hb2).2
      have hab : a ≠ b := by
        rintro rfl
        exact lt_irrefl _ hfilt
      have hss : ss.indexOf a < ss.indexOf b :=
        (indexOf_filter_lt_iff ha2 hb2 hab).mp hfilt
      rw [List.indexOf_cons_ne _ (Ne.symm has), List.indexOf_cons_ne _ (Ne.symm hbs)]
      exact Nat.succ_lt_succ hss

theorem counterItems_pairwise_firstIdx (stems : List String) :
    (counterItems stems).Pairwise
      (fun a b => stems.indexOf a.1 < stems.indexOf b.1) := by
  unfold counterItems
  rw [List.pairwise_map]
  exact uniqueStems_pairwise_firstIdx stems

/-- Order in which Counter.most_common() lists the groups: strictly larger
count first; equal counts keep the first-encounter order, expressed through
the position of the first occurrence of the stem. -/
def dupOrder (f : String × Nat → Nat) (a b : String × Nat) : Prop :=
  b.2 < a.2 ∨ (b.2 = a.2 ∧ f a < f b)

theorem mem_insertByCount {x a : String × Nat} {l : List (String × Nat)} :
    a ∈ insertByCount x l ↔ a = x ∨ a ∈ l := by
  induction l with
  | nil => simp [insertByCount]
  | cons y ys ih =>
    rw [insertByCount]
    split
    · simp
    · rw [List.mem_cons, ih, List.mem_cons]
      tauto

theorem pairwise_insertByCount {f : String × Nat → Nat} {x : String × Nat}
    {l : List (String × Nat)} (hl : l.Pairwise (dupOrder f))
    (hx : ∀ y ∈ l, f x < f y) :
    (insertByCount x l).Pairwise (dupOrder f) := by
  induction l with
  | nil => simp [insertByCount]
  | cons y ys ih =>
    rw [List.pairwise_cons] at hl
    rcases hl with ⟨hy, hys⟩
    rw [insertByCount]
    split
    · rename_i hle
      rw [List.pairwise_cons]
      refine ⟨?_, List.pairwise_cons.mpr ⟨hy, hys⟩⟩
      intro w hw
      rcases List.mem_cons.mp hw with rfl | hwys
      · rcases Nat.lt_or_ge w.2 x.2 with h | h
        · exact Or.inl h
        · exact Or.inr ⟨Nat.le_antisymm hle h, hx w (List.mem_cons_self _ _)⟩
      · rcases hy w hwys with h | ⟨heq, _⟩
        · exact Or.inl (lt_of_lt_of_le h hle)
        · rcases Nat.lt_or_ge w.2 x.2 with h2 | h2
          · exact Or.inl h2
          · exact Or.inr ⟨Nat.le_antisymm (heq ▸ hle) h2,
              hx w (List.mem_cons_of_mem _ hwys)⟩
    · rename_i hgt
      rw [List.pairwise_cons]
      constructor
      · intro w hw
        rcases mem_insertByCount.mp hw with rfl | hwys
        · exact Or.inl (Nat.lt_of_not_le hgt)
        · exact hy w hwys
      · exact ih hys (fun z hz => hx z (List.mem_cons_of_mem _ hz))

theorem mem_sortByCountDesc {a : String × Nat} {l : List (String × Nat)} :
    a ∈ sortByCountDesc l ↔ a ∈ l := by
  induction l with
  | nil => simp [sortByCountDesc]
  | cons x xs ih =>
    rw [sortByCountDesc, mem_insertByCount, ih, List.mem_cons]

theorem pairwise_sortByCountDesc {f : String × Nat → Nat}
    {l : List (String × Nat)} (h : l.Pairwise (fun a b => f a < f b)) :
    (sortByCountDesc l).Pairwise (dupOrder f) := by
  induction l with
  | nil => simp [sortByCountDesc]
  | cons x xs ih =>
    rw [List.pairwise_cons] at h
    rw [sortByCountDesc]
    refine pairwise_insertByCount (ih h.2) ?_
    intro y hy
    exact h.1 y (mem_sortByCountDesc.mp hy)

theorem mem_counterItems {stems : List String} {g : String × Nat} :
    g ∈ counterItems stems ↔ g.1 ∈ stems ∧ g.2 = stems.count g.1 := by
  unfold counterItems
  rw [List.mem_map]
  constructor
  · rintro ⟨s, hs, rfl⟩
    exact ⟨(mem_uniqueStems _).mp hs, rfl⟩
  · rintro ⟨h1, h2⟩
    exact ⟨g.1, (mem_uniqueStems _).mpr h1, by rw [← h2]⟩

theorem mem_duplicateItems {stems : List String} {g : String × Nat} :
    g ∈ duplicateItems stems ↔
      g.1 ∈ stems ∧ g.2 = stems.count g.1 ∧ 1 < g.2 := by
  unfold duplicateItems mostCommon
  rw [List.mem_filter, mem_sortByCountDesc, mem_counterItems]
  constructor
  · rintro ⟨⟨h1, h2⟩, h3⟩
    exact ⟨h1, h2, by simpa using h3⟩
  · rintro ⟨h1, h2, h3⟩
    exact ⟨⟨h1, h2⟩, by simpa using h3⟩

theorem count_map_eq_length_filter (files : List Entry) (s : String) :
    (files.map stemOf).count s
      = (files.filter (fun e => stemOf e = s)).length := by
  induction files with
  | nil => simp
  | cons e es ih =>
    rw [List.map_cons, List.count_cons, List.filter_cons, ih]
    by_cases h : stemOf e = s <;> simp [h]

/-- C8: the duplicate auditor reports exactly the extension-stripped base
names carried by more than one in-scope file; every reported group count
equals both the number of occurrences of the stem and the length of the
full-path list attached to the group; and the report is ordered by strictly
descending count with ties in first-encounter order of the stems during the
walk. -/
theorem duplicate_audit (entries : List Entry) :
    (∀ r ∈ jpegCounterAudit entries, 1 < r.count ∧
      r.count = ((jpegFiles entries).map stemOf).count r.stem ∧
      r.count = r.paths.length) ∧
    (∀ s : String, 1 < ((jpegFiles entries).map stemOf).count s ↔
      ∃ r ∈ jpegCounterAudit entries, r.stem = s) ∧
    (jpegCounterAudit entries).Pairwise (fun a b =>
      b.count < a.count ∨ (b.count = a.count ∧
        ((jpegFiles entries).map stemOf).indexOf a.stem
          < ((jpegFiles entries).map stemOf).indexOf b.stem)) := by
  refine ⟨?_, ?_, ?_⟩
  · intro r hr
    rcases List.mem_map.mp hr with ⟨g, hg, rfl⟩
    rcases mem_duplicateItems.mp hg with ⟨h1, h2, h3⟩
    refine ⟨h3, h2, ?_⟩
    rw [h2, List.length_map, count_map_eq_length_filter]
  · intro s
    constructor
    · intro hs
      have hmem : s ∈ (jpegFiles entries).map stemOf := by
        rw [← List.count_pos_iff]
        omega
      refine ⟨⟨s, ((jpegFiles entries).map stemOf).count s,
        ((jpegFiles entries).filter (fun e => stemOf e = s)).map Entry.rel⟩,
        ?_, rfl⟩
      exact List.mem_map.mpr
        ⟨(s, ((jpegFiles entries).map stemOf).count s),
          mem_duplicateItems.mpr ⟨hmem, rfl, hs⟩, rfl⟩
    · rintro ⟨r, hr, rfl⟩
      rcases List.mem_map.mp hr with ⟨g, hg, rfl⟩
      rcases mem_duplicateItems.mp hg with ⟨_, h2, h3⟩
      rw [← h2]
      exact h3
  · rw [jpegCounterAudit, List.pairwise_map]
    have hpw : (duplicateItems ((jpegFiles entries).map stemOf)).Pairwise
        (dupOrder (fun g => ((jpegFiles entries).map stemOf).indexOf g.1)) := by
      unfold duplicateItems mostCommon
      exact List.Pairwise.sublist (List.filter_sublist _)
        (pairwise_sortByCountDesc (counterItems_pairwise_firstIdx _))
    exact hpw.imp (fun h => h)

/-- Concrete walk for the C8 witness: a/photo1.jpg, b/photo1.jpg,
a/photo2.jpg — photo1 is duplicated, photo2 is not. -/
def entsC8 : List Entry :=
  [ ⟨["a"], .dir⟩,
    ⟨["a", "photo1.jpg"], .file (.image "JPEG")⟩,
    ⟨["a", "photo2.jpg"], .file (.image "JPEG")⟩,
    ⟨["b"], .dir⟩,
    ⟨["b", "photo1.jpg"], .file (.image "JPEG")⟩ ]

/-- Witness for C8: the audit properties instantiated at the concrete walk
entsC8. -/
theorem duplicate_audit_witness :
    (∀ r ∈ jpegCounterAudit entsC8, 1 < r.count ∧
      r.count = ((jpegFiles entsC8).map stemOf).count r.stem ∧
      r.count = r.paths.length) ∧
    (∀ s : String, 1 < ((jpegFiles entsC8).map stemOf).count s ↔
      ∃ r ∈ jpegCounterAudit entsC8, r.stem = s) ∧
    (jpegCounterAudit entsC8).Pairwise (fun a b =>
      b.count < a.count ∨ (b.count = a.count ∧
        ((jpegFiles entsC8).map stemOf).indexOf a.stem
          < ((jpegFiles entsC8).map stemOf).indexOf b.stem)) :=
  duplicate_audit entsC8

end ImgProc
